import Mathlib

set_option maxHeartbeats 1000000
set_option autoImplicit false

/-!
Verification development for the poplar remote-method layer: a shallow
embedding of the hook-dispatch engine (`lib/poplar.js`) and of the
parameter-validation engine (`lib/validation.js`), with theorems about the
orchestration, hook execution, listener-tree lookup and validation results.
-/

/-! ## Basic data: errors, values, invocation context -/

/-- Error values passed to continuations (`next(err)`); only truthy errors are
represented, a falsy error is `none` of `Option Err`. -/
abbrev Err := Nat

/-- Result values delivered by a method handler. -/
abbrev Value := Nat

/-- The invocation context: carries the mutable `error` and `result` slots of
the JS context object, plus an observation log that instrumented hooks append
their name to (mirroring the ordered `result.push(...)` log of the repository's
own tests). -/
structure Ctx where
  error : Option Err := none
  result : Option Value := none
  log : List String := []
deriving DecidableEq

/-- What a protocol-following hook does, per the hook contract of
`execHooks`: call the continuation (optionally with a truthy error), return a
then-able value that later resolves or rejects, or throw synchronously. -/
inductive HookAct where
  | callCont (e : Option Err)
  | retThenable (r : Except Err Unit)
  | throwSync (e : Err)

/-- A hook reads the context, may mutate it, and performs one `HookAct`. -/
abbrev Hook := Ctx → HookAct × Ctx

/-- Model of `execStack` from `Poplar.prototype.execHooks` (lib/poplar.js:302-321).
Runs the hook stack sequentially and returns how many hooks ran, the final
context and the error value delivered to the outer callback `next`:
* continuation called with a falsy error: shift and run the next hook;
* continuation called with a truthy error: `next(err)`;
* the hook returned a then-able: `result.then(function() { next(); }, next)`,
  so resolution calls the outer `next()` directly and rejection `next(err)`;
* the hook threw: the `catch` clause calls `next(err)`;
* stack exhausted: `next()`. -/
def execStack : List Hook → Ctx → Nat × Ctx × Option Err
  | [], ctx => (0, ctx, none)
  | h :: rest, ctx =>
    match h ctx with
    | (.callCont none, ctx') =>
      let r := execStack rest ctx'
      (r.1 + 1, r.2)
    | (.callCont (some e), ctx') => (1, ctx', some e)
    | (.retThenable (.ok _), ctx') => (1, ctx', none)
    | (.retThenable (.error e), ctx') => (1, ctx', some e)
    | (.throwSync e, ctx') => (1, ctx', some e)

/-! ## Listener search and the listener tree -/

/-- The three hook phases. -/
inductive Phase where
  | before
  | after
  | afterError
deriving DecidableEq

/-- The string used for a phase when building event names. -/
def Phase.str : Phase → String
  | .before => "before"
  | .after => "after"
  | .afterError => "afterError"

/-- Model of `Poplar.prototype.searchListeners` (lib/poplar.js:362-372): scan all
registered event names in insertion order and keep those whose glob pattern
matches `"<type>.<methodName>"`. The matcher `mm` abstracts the external
`minimatch` library (an external collaborator, not part of the sources). -/
def searchListeners (mm : String → String → Bool) (eventNames : List String)
    (methodName ty : String) : List String :=
  eventNames.filter (fun name => mm (ty ++ "." ++ methodName) name)

/-- One listener-tree entry: the three ordered pattern lists for a method. -/
structure PhaseListeners where
  before : List String
  after : List String
  afterError : List String
deriving DecidableEq

/-- Select the pattern list of a phase from a tree entry. -/
def PhaseListeners.get : PhaseListeners → Phase → List String
  | l, .before => l.before
  | l, .after => l.after
  | l, .afterError => l.afterError

/-- Model of `Poplar.prototype.analyzeListenerTree` (lib/poplar.js:399-412): for every
registered method name and each of the three phases, precompute the matching
pattern list by a `searchListeners` scan. -/
def analyzeListenerTree (mm : String → String → Bool) (eventNames : List String)
    (methodNames : List String) : List (String × PhaseListeners) :=
  methodNames.map (fun name =>
    (name, ⟨searchListeners mm eventNames name "before",
            searchListeners mm eventNames name "after",
            searchListeners mm eventNames name "afterError"⟩))

/-- Model of `Poplar.prototype.searchListenerTree` (lib/poplar.js:379-386): look the
method up in the precomputed tree; unknown methods give the empty list. -/
def searchListenerTree (tree : List (String × PhaseListeners))
    (methodName : String) (p : Phase) : List String :=
  match tree.lookup methodName with
  | some ls => ls.get p
  | none => []

/-! ## The dispatch model: registry, execHooks, orchestrator -/

/-- The dispatch-time state of a `Poplar` instance: the glob matcher, the
event registry (`_events`: event name, in registration order, to the ordered
listener list) and the precomputed listener tree (`_listenerTree`). -/
structure PoplarModel where
  mm : String → String → Bool
  registry : List (String × List Hook)
  tree : List (String × PhaseListeners)

/-- Model of `Object.keys(this._events)`: event names in registration order. -/
def PoplarModel.eventNames (P : PoplarModel) : List String :=
  P.registry.map Prod.fst

/-- Model of `this.listeners(name)`: the ordered listener list of one event. -/
def PoplarModel.listeners (P : PoplarModel) (name : String) : List Hook :=
  (P.registry.lookup name).getD []

/-- Model of `Poplar.prototype.execHooks` (lib/poplar.js:282-322): resolve the pattern
list from the listener tree, fall back to a live `searchListeners` scan when
the tree gives nothing, flatten each pattern's listener list into one stack
(pattern order, then within-pattern registration order) and run it. -/
def execHooks (P : PoplarModel) (p : Phase) (methodName : String) (ctx : Ctx) :
    Nat × Ctx × Option Err :=
  let fromTree := searchListenerTree P.tree methodName p
  let listenerNames :=
    if fromTree.isEmpty then searchListeners P.mm P.eventNames methodName p.str
    else fromTree
  execStack (listenerNames.flatMap P.listeners) ctx

/-- A method handler: reads the context and calls back with
`(err, result)`, possibly mutating the context. -/
abbrev MethodFn := Ctx → (Option Err × Option Value) × Ctx

/-- The outcome of one `invokeMethodInContext` run: the final context, the
single error value handed to the callback `cb`, and how many hooks of each
phase were executed. -/
structure InvokeOutcome where
  finalCtx : Ctx
  cbErr : Option Err
  beforeRan : Nat
  afterRan : Nat
  afterErrorRan : Nat
deriving DecidableEq

/-- Model of `triggerErrorAndCallBack` (lib/poplar.js:349-354): store the triggering
error on `ctx.error`, run the afterError hooks on that context, and call back
with `hookErr || err`. Returns the afterError hook count, the final context
and the callback error. -/
def triggerErrorAndCallBack (P : PoplarModel) (m : String) (e : Err) (ctx : Ctx) :
    Nat × Ctx × Option Err :=
  match execHooks P .afterError m { ctx with error := some e } with
  | (k, ctx2, hookErr) => (k, ctx2, some (hookErr.getD e))

/-- Model of `Poplar.prototype.invokeMethodInContext` (lib/poplar.js:331-355):
before hooks, then `method.invoke` (its result stored on `ctx.result` before
the error check; a handler error goes straight to `cb`), then after hooks;
before-hook and after-hook failures route through `triggerErrorAndCallBack`. -/
def invokeMethodInContext (P : PoplarModel) (invoke : MethodFn) (m : String)
    (ctx : Ctx) : InvokeOutcome :=
  match execHooks P .before m ctx with
  | (nb, ctx1, some e) =>
    match triggerErrorAndCallBack P m e ctx1 with
    | (k, cf, ce) => ⟨cf, ce, nb, 0, k⟩
  | (nb, ctx1, none) =>
    match invoke ctx1 with
    | ((some e, r), ctx2) => ⟨{ ctx2 with result := r }, some e, nb, 0, 0⟩
    | ((none, r), ctx2) =>
      match execHooks P .after m { ctx2 with result := r } with
      | (na, ctx3, some e) =>
        match triggerErrorAndCallBack P m e ctx3 with
        | (k, cf, ce) => ⟨cf, ce, nb, na, k⟩
      | (na, ctx3, none) => ⟨ctx3, none, nb, na, 0⟩

/-! ## Registration: `Poplar.prototype.use` -/

/-- The collaborator interface of an `ApiBuilder` as consumed by
`Poplar.prototype.use`: a name, the method enumeration, and its own event
registrations (event name to ordered hook list). -/
structure Builder where
  name : String
  methods : List (String × MethodFn)
  events : List (String × List Hook)

/-- The registration-time state of a `Poplar` instance. -/
structure PoplarState where
  mm : String → String → Bool
  apiBuilders : List String
  registry : List (String × List Hook)
  methods : List (String × MethodFn)
  listenerTree : List (String × PhaseListeners)

/-- Model of `EventEmitter.on`: append the listener to an existing event's list, or
append a new event at the end of the key order. -/
def onEvent (reg : List (String × List Hook)) (ty : String) (fn : Hook) :
    List (String × List Hook) :=
  match reg with
  | [] => [(ty, [fn])]
  | (t, fns) :: rest =>
    if t == ty then (t, fns ++ [fn]) :: rest
    else (t, fns) :: onEvent rest ty fn

/-- Model of `mergeListeners` inside `use` (lib/poplar.js:78-91): re-register every
hook function of the builder's own event set, preserving order. -/
def mergeListeners (reg : List (String × List Hook))
    (events : List (String × List Hook)) : List (String × List Hook) :=
  events.foldl (fun r e => e.2.foldl (fun s f => onEvent s e.1 f) r) reg

/-- The assertion message of `use` for a duplicate ApiBuilder name. -/
def dupMsg (name : String) : String :=
  "Can\x27t use the same ApiBuilder: " ++ name ++ " more than once!"

/-- Model of `Poplar.prototype.use` (lib/poplar.js:55-104): a duplicate builder name
raises (the `assert(false, ...)` throws, so nothing is merged); otherwise the
builder's listeners and methods (installed as `"<name>.<methodName>"`) are
merged and the listener tree is fully rebuilt before returning. -/
def use (st : PoplarState) (b : Builder) : Except String PoplarState :=
  if st.apiBuilders.contains b.name then .error (dupMsg b.name)
  else
    let registry := mergeListeners st.registry b.events
    let methods := st.methods ++ b.methods.map (fun q => (b.name ++ "." ++ q.1, q.2))
    .ok ⟨st.mm, st.apiBuilders ++ [b.name], registry, methods,
         analyzeListenerTree st.mm (registry.map Prod.fst) (methods.map Prod.fst)⟩

/-! ## Instrumented hooks used by the theorems -/

/-- A hook that appends its name to the context log and performs `a`. -/
def logHook (s : String) (a : HookAct) : Hook :=
  fun c => (a, { c with log := c.log ++ [s] })

/-- A logging hook that calls its continuation with no error. -/
def contHook (s : String) : Hook :=
  logHook s (.callCont none)

/-! ## The validation engine (lib/validation.js) -/

/-- JS values appearing in a parameter bag. -/
inductive JSVal where
  | null
  | str (s : String)
  | num (n : Int)
  | bool (b : Bool)
deriving DecidableEq

/-- A parameter bag; an absent parameter is an absent key. -/
abbrev Params := List (String × JSVal)

/-- Modelled from the spec: `helper.isEmpty` (lib/helper.js is not among the
sources); the spec describes it as "an externally defined emptiness predicate
— covers absent, null, and empty-string cases". -/
def isEmpty : Option JSVal → Bool
  | none => true
  | some .null => true
  | some (.str s) => s.isEmpty
  | some _ => false

/-- What a function-valued validator does when called: return a value (with
string truthiness deciding failure) or throw. -/
inductive FnRes where
  | ret (r : Option String)
  | thrown (e : String)

/-- A validator spec attached under a validator name: either a function, or
an options object. A falsy spec is represented as `opts false none []` (the
code normalizes it with `validatorOpts || {}` in the non-empty branch). -/
inductive VSpec where
  | fn (f : Option JSVal → Params → FnRes)
  | opts (truthy : Bool) (message : Option String) (args : List JSVal)

/-- One accept rule: the parameter name and its ordered validator map. -/
structure Accept where
  arg : String
  validates : List (String × VSpec)

/-- The external `validator` library: validator name to implementation, the
implementation taking the flattened argument list `[val, ...args]`. -/
abbrev VLib := String → Option (List JSVal → Bool)

/-- Model of `ValidationError._errors`: parameter name to (validator name to message),
both key orders being insertion order. -/
abbrev ValErrors := List (String × List (String × String))

/-- Model of `ValidationError.prototype.defaultMessage` (lib/validation.js:73-75). -/
def defaultMessage (name vname : String) : String :=
  name ++ ": \x27" ++ vname ++ "\x27 validation failed"

/-- JS `msg || dflt`: an absent or empty-string message falls back. -/
def msgOr : Option String → String → String
  | some s, d => if s.isEmpty then d else s
  | none, d => d

/-- Model of the JS assignment storing a message under a validator key: replace in place or append at the end. -/
def setKey : List (String × String) → String → String → List (String × String)
  | [], k, v => [(k, v)]
  | (k', v') :: rest, k, v =>
    if k' == k then (k, v) :: rest
    else (k', v') :: setKey rest k v

/-- Update the entry of one parameter, appending a fresh entry at the end
when the parameter had no errors yet. -/
def addParam : ValErrors → String → String → String → ValErrors
  | [], name, vname, m => [(name, [(vname, m)])]
  | (n, obj) :: rest, name, vname, m =>
    if n == name then (n, setKey obj vname m) :: rest
    else (n, obj) :: addParam rest name vname m

/-- Model of `ValidationError.prototype.add` (lib/validation.js:31-36): default the
message when falsy, then store it under `(name, vname)`. -/
def addError (es : ValErrors) (name vname : String) (msg : Option String) :
    ValErrors :=
  addParam es name vname (msgOr msg (defaultMessage name vname))

/-- JS truthiness of an optional string result. -/
def strTruthy : Option String → Bool
  | none => false
  | some s => !s.isEmpty

/-- The non-empty-value loop body of `Validate` (lib/validation.js:129-159):
a function spec is called (a truthy return is a failure, a throw is ignored);
an options spec looks the implementation up in the library and records a
failure with the spec's message when it reports false; an unknown validator
is skipped. -/
def runValidator (lib : VLib) (params : Params) (name : String)
    (val : Option JSVal) (es : ValErrors) (v : String × VSpec) : ValErrors :=
  match v.2 with
  | .fn f =>
    match f val params with
    | .ret r => if strTruthy r then addError es name v.1 r else es
    | .thrown _ => es
  | .opts t msg args =>
    let msg := if t then msg else none
    let args := if t then args else []
    match lib v.1 with
    | some vfn => if vfn (val.toList ++ args) then es else addError es name v.1 msg
    | none => es

/-- The per-accept body of `Validate` (lib/validation.js:103-162): on an
empty value only the `required` spec is consulted; on a non-empty value the
`required` spec is deleted and every remaining spec is evaluated in order. -/
def validateOne (lib : VLib) (params : Params) (es : ValErrors) (a : Accept) :
    ValErrors :=
  let val := params.lookup a.arg
  if isEmpty val then
    match a.validates.lookup "required" with
    | some (.fn f) =>
      match f val params with
      | .ret r => if strTruthy r then addError es a.arg "required" r else es
      | .thrown _ => es
    | some (.opts t msg _) => if t then addError es a.arg "required" msg else es
    | none => es
  else
    (a.validates.filter (fun x => !(x.1 == "required"))).foldl
      (runValidator lib params a.arg val) es

/-- Model of `Validate` (lib/validation.js:97-164): fold the accept rules over a fresh
`ValidationError`. -/
def Validate (lib : VLib) (params : Params) (accepts : List Accept) : ValErrors :=
  accepts.foldl (validateOne lib params) []

/-- Model of `ValidationError.prototype.flatten` (lib/validation.js:52-61): one message
per failing (parameter, validator) pair, parameter order then validator
order, falling back to the default message for an empty stored message. -/
def flattenErrors (es : ValErrors) : List String :=
  es.flatMap (fun e => e.2.map (fun p =>
    if p.2.isEmpty then defaultMessage e.1 p.1 else p.2))

/-- Model of `ValidationError.prototype.any` (lib/validation.js:80-82). -/
def anyErrors (es : ValErrors) : Bool := !es.isEmpty

/-- Whether a `required` failure is recorded for parameter `p`. -/
def hasRequired (es : ValErrors) (p : String) : Bool :=
  match es.lookup p with
  | some obj => (obj.lookup "required").isSome
  | none => false

/-- The structural invariant of `ValidationError._errors`: one entry per
parameter (keys distinct), every entry non-empty with distinct validator
keys. -/
def goodErrors (es : ValErrors) : Prop :=
  (es.map Prod.fst).Nodup ∧ ∀ e ∈ es, e.2 ≠ [] ∧ (e.2.map Prod.fst).Nodup

/-! ## Concrete fixtures for the witnesses -/

/-- A matcher that only matches a pattern equal to the candidate. -/
def mmEq : String → String → Bool := fun s pat => s == pat

/-- A fresh context. -/
def ctx0 : Ctx := {}

/-- A dispatch model with no hooks registered. -/
def P0 : PoplarModel := ⟨mmEq, [], []⟩

/-- A dispatch model with one failing before-hook on `a.b`. -/
def P3 : PoplarModel := ⟨mmEq, [("before.a.b", [logHook "B1" (.callCont (some 5))])], []⟩

/-- The context after the failing before-hook of `P3` ran. -/
def ctxB1 : Ctx := { error := none, result := none, log := ["B1"] }

/-- A handler that reports error `7` while delivering result `3`. -/
def inv0 : MethodFn := fun c => ((some 7, some 3), c)

/-- A validator library that knows no validator. -/
def libC : VLib := fun _ => none

/-- A validator library in which every validator fails. -/
def libFail : VLib := fun _ => some (fun _ => false)

/-- Scenario C parameter bag: `{email: given}`. -/
def paramsC : Params := [("email", .str "")]

/-- Scenario C accept rule. -/
def acceptC : Accept := ⟨"email", [("required", .opts true (some "email is required") [])]⟩

/-- Scenario C accept list. -/
def acceptsC : List Accept := [acceptC]

/-- A parameter bag with a non-empty `email`. -/
def paramsD : Params := [("email", JSVal.str "x")]

/-- A rule with both a `required` spec and a failing `isEmail` spec. -/
def acceptD : Accept :=
  ⟨"email", [("required", .opts true (some "m") []), ("isEmail", .opts true (some "bad email") [])]⟩

/-- A function validator that always throws. -/
def throwF : Option JSVal → Params → FnRes := fun _ _ => .thrown "boom"

/-- A trivial method handler. -/
def mfn0 : MethodFn := fun c => ((none, none), c)

/-- A builder with one method and one before-hook of its own. -/
def b0 : Builder := ⟨"users", [("login", mfn0)], [("before.users.login", [contHook "bh"])]⟩

/-- A fresh registration state. -/
def st0 : PoplarState := ⟨mmEq, [], [], [], []⟩

/-- A registration state that already merged a builder named `users`. -/
def st1 : PoplarState := ⟨mmEq, ["users"], [], [], []⟩

/-! ## Lemmas about `execStack` -/

theorem execStack_contHooks_append (pre : List String) (rest : List Hook) (ctx : Ctx) :
    execStack (pre.map contHook ++ rest) ctx =
      ((execStack rest { ctx with log := ctx.log ++ pre }).1 + pre.length,
       (execStack rest { ctx with log := ctx.log ++ pre }).2) := by
  induction pre generalizing ctx with
  | nil => simp
  | cons a as ih =>
    simp only [List.map_cons, List.cons_append, execStack, contHook, logHook, List.append_eq]
    rw [ih]
    simp [List.append_assoc, Nat.add_assoc, Nat.add_comm]

theorem execStack_contHooks (names : List String) (ctx : Ctx) :
    execStack (names.map contHook) ctx =
      (names.length, { ctx with log := ctx.log ++ names }, none) := by
  have h := execStack_contHooks_append names [] ctx
  simpa [execStack] using h

theorem execStack_cons_act (s : String) (a : HookAct) (rest : List Hook) (ctx : Ctx) :
    execStack (logHook s a :: rest) ctx =
      match a with
      | .callCont none =>
        ((execStack rest { ctx with log := ctx.log ++ [s] }).1 + 1,
         (execStack rest { ctx with log := ctx.log ++ [s] }).2)
      | .callCont (some e) => (1, { ctx with log := ctx.log ++ [s] }, some e)
      | .retThenable (.ok _) => (1, { ctx with log := ctx.log ++ [s] }, none)
      | .retThenable (.error e) => (1, { ctx with log := ctx.log ++ [s] }, some e)
      | .throwSync e => (1, { ctx with log := ctx.log ++ [s] }, some e) := by
  cases a with
  | callCont e => cases e <;> rfl
  | retThenable r => cases r <;> rfl
  | throwSync e => rfl

/-! ## C1: a handler error bypasses the afterError chain -/

/-- C1: in `invokeMethodInContext`, when the before-hooks all succeed and the
method handler's callback then reports an error, the final callback is
invoked directly with that handler error and the afterError hooks are not
executed (the outcome is exactly the post-invoke context with the result
stored, the handler error, and zero afterError hooks run). -/
theorem c1_handler_error_bypasses_afterError (P : PoplarModel) (invoke : MethodFn)
    (m : String) (ctx : Ctx) (nb : Nat) (ctx1 : Ctx) (e : Err) (r : Option Value)
    (ctx2 : Ctx)
    (hb : execHooks P .before m ctx = (nb, ctx1, none))
    (hi : invoke ctx1 = ((some e, r), ctx2)) :
    invokeMethodInContext P invoke m ctx =
      ⟨{ ctx2 with result := r }, some e, nb, 0, 0⟩ := by
  simp only [invokeMethodInContext, hb, hi]

theorem c1_witness :
    execHooks P0 .before "a.b" ctx0 = (0, ctx0, none) ∧
    inv0 ctx0 = ((some 7, some 3), ctx0) ∧
    invokeMethodInContext P0 inv0 "a.b" ctx0 =
      ⟨{ ctx0 with result := some 3 }, some 7, 0, 0, 0⟩ :=
  ⟨rfl, rfl, c1_handler_error_bypasses_afterError P0 inv0 "a.b" ctx0 0 ctx0 7 (some 3) ctx0 rfl rfl⟩

/-! ## C2: the then-able protocol of `execStack` -/

/-- C2 counterexample: a stack of two hooks in which the first returns a
then-able that resolves. The claim says the resolution is awaited and then
the next hook in the stack runs; in the code, resolution calls the outer
`next()` directly, so only one hook runs, the second hook never executes
(the log stays `["a"]`) and the whole stack reports success. -/
theorem c2_counterexample_thenable_skips_rest :
    execStack [logHook "a" (.retThenable (.ok ())), contHook "b"] ctx0
      = (1, { error := none, result := none, log := ["a"] }, none)
    ∧ (execStack [logHook "a" (.retThenable (.ok ())), contHook "b"] ctx0).2.1.log
        ≠ ["a", "b"] := by
  exact ⟨rfl, by decide⟩

/-- C2 (amended): in `execStack`, a hook that returns a then-able terminates
the stack: its resolution invokes the final callback with success
immediately and the remaining hooks are skipped; its rejection aborts with
the rejection error; and a synchronous throw by a hook is captured and
treated as an abort with the thrown error. -/
theorem c2_thenable_terminates_stack (ctx : Ctx) (pre : List String) (n : String)
    (e : Err) (post : List Hook) :
    execStack (pre.map contHook ++ logHook n (.retThenable (.ok ())) :: post) ctx
      = (pre.length + 1, { ctx with log := (ctx.log ++ pre) ++ [n] }, none)
    ∧ execStack (pre.map contHook ++ logHook n (.retThenable (.error e)) :: post) ctx
      = (pre.length + 1, { ctx with log := (ctx.log ++ pre) ++ [n] }, some e)
    ∧ execStack (pre.map contHook ++ logHook n (.throwSync e) :: post) ctx
      = (pre.length + 1, { ctx with log := (ctx.log ++ pre) ++ [n] }, some e) := by
  refine ⟨?_, ?_, ?_⟩ <;>
    rw [execStack_contHooks_append, execStack_cons_act] <;>
    simp [Nat.add_comm]

/-! ## C3: before/after failures route through afterError hooks -/

/-- C3: when the before-hook chain or the after-hook chain fails with error
`E`, the orchestrator first sets the context's error slot to `E` (the
afterError hooks run on a context with `error = some E`), and the single
final callback receives the afterError-hook error when that chain produced
one, otherwise `E`; the outcome is a single callback value. -/
theorem c3_error_routes_through_afterError (P : PoplarModel) (invoke : MethodFn)
    (m : String) (ctx : Ctx) (E : Err) :
    (∀ nb ctx1 k ctx2 ae,
      execHooks P .before m ctx = (nb, ctx1, some E) →
      execHooks P .afterError m { ctx1 with error := some E } = (k, ctx2, ae) →
      invokeMethodInContext P invoke m ctx = ⟨ctx2, some (ae.getD E), nb, 0, k⟩)
    ∧ (∀ nb ctx1 r ctx2 na ctx3 k ctx4 ae,
      execHooks P .before m ctx = (nb, ctx1, none) →
      invoke ctx1 = ((none, r), ctx2) →
      execHooks P .after m { ctx2 with result := r } = (na, ctx3, some E) →
      execHooks P .afterError m { ctx3 with error := some E } = (k, ctx4, ae) →
      invokeMethodInContext P invoke m ctx = ⟨ctx4, some (ae.getD E), nb, na, k⟩) := by
  constructor
  · intro nb ctx1 k ctx2 ae hb hae
    simp only [invokeMethodInContext, triggerErrorAndCallBack, hb, hae]
  · intro nb ctx1 r ctx2 na ctx3 k ctx4 ae hb hi ha hae
    simp only [invokeMethodInContext, triggerErrorAndCallBack, hb, hi, ha, hae]

theorem c3_witness :
    execHooks P3 .before "a.b" ctx0 = (1, ctxB1, some 5) ∧
    execHooks P3 .afterError "a.b" { ctxB1 with error := some 5 } =
      (0, { ctxB1 with error := some 5 }, none) ∧
    invokeMethodInContext P3 inv0 "a.b" ctx0 =
      ⟨{ ctxB1 with error := some 5 }, some 5, 1, 0, 0⟩ :=
  ⟨rfl, rfl,
   (c3_error_routes_through_afterError P3 inv0 "a.b" ctx0 5).1 1 ctxB1 0
     { ctxB1 with error := some 5 } none rfl rfl⟩

/-! ## C4: strict sequential execution with short-circuiting -/

/-- C4: `execHooks` runs the matched hook stack strictly sequentially in
deterministic order, the stack being the flattening of the resolved pattern
list (pattern order, then within-pattern registration order); when a hook
passes an error to its continuation, execution stops immediately and no
later hook in the stack runs (the log ends at the aborting hook); exhausting
the stack without an abort signals success. -/
theorem c4_sequential_short_circuit (ctx : Ctx) (names pre : List String)
    (n : String) (e : Err) (post : List Hook) (P : PoplarModel) (m : String)
    (p : Phase) :
    execStack (names.map contHook) ctx
      = (names.length, { ctx with log := ctx.log ++ names }, none)
    ∧ execStack (pre.map contHook ++ logHook n (.callCont (some e)) :: post) ctx
      = (pre.length + 1, { ctx with log := (ctx.log ++ pre) ++ [n] }, some e)
    ∧ execHooks P p m ctx =
        execStack
          ((let t := searchListenerTree P.tree m p
            if t.isEmpty then searchListeners P.mm P.eventNames m p.str
            else t).flatMap P.listeners) ctx := by
  refine ⟨execStack_contHooks names ctx, ?_, rfl⟩
  rw [execStack_contHooks_append, execStack_cons_act]
  simp [Nat.add_comm]

/-! ## C10: the result slot is assigned before the error check -/

/-- C10: in `invokeMethodInContext`, the context's result slot is assigned
the value delivered by the handler's callback in every case: on a handler
failure the final context carries the handler's result while the error is
signalled to the callback (and no afterError hook runs); on handler success
the after-hooks already observe a context whose result slot holds the
handler's result. -/
theorem c10_result_assigned_before_error_check (P : PoplarModel)
    (invoke : MethodFn) (m : String) (ctx : Ctx) :
    (∀ nb ctx1 e r ctx2,
      execHooks P .before m ctx = (nb, ctx1, none) →
      invoke ctx1 = ((some e, r), ctx2) →
      (invokeMethodInContext P invoke m ctx).finalCtx.result = r ∧
      (invokeMethodInContext P invoke m ctx).cbErr = some e ∧
      (invokeMethodInContext P invoke m ctx).afterErrorRan = 0)
    ∧ (∀ nb ctx1 r ctx2 na ctx3,
      execHooks P .before m ctx = (nb, ctx1, none) →
      invoke ctx1 = ((none, r), ctx2) →
      execHooks P .after m { ctx2 with result := r } = (na, ctx3, none) →
      invokeMethodInContext P invoke m ctx = ⟨ctx3, none, nb, na, 0⟩) := by
  constructor
  · intro nb ctx1 e r ctx2 hb hi
    simp [invokeMethodInContext, hb, hi]
  · intro nb ctx1 r ctx2 na ctx3 hb hi ha
    simp only [invokeMethodInContext, hb, hi, ha]

/-! ## C5: listener tree lookup agrees with the live scan -/

theorem lookup_map_self {β : Type} (f : String → β) (l : List String) (m : String)
    (hm : m ∈ l) : (l.map (fun n => (n, f n))).lookup m = some (f m) := by
  induction l with
  | nil => cases hm
  | cons a as ih =>
    by_cases h : m = a
    · subst h
      simp [List.lookup]
    · have hba : (m == a) = false := beq_eq_false_iff_ne.mpr h
      rcases List.mem_cons.mp hm with h' | h'
      · exact absurd h' h
      · simp only [List.lookup, hba]
        exact ih h'

/-- C5: for every method name registered in the method registry and every
phase, the listener-tree lookup (`searchListenerTree` after
`analyzeListenerTree`) is identical to the live registry scan
(`searchListeners`, the fallback in `execHooks`), and it contains exactly
the registered patterns that the glob matcher accepts for
`"<phase>.<method>"`. -/
theorem c5_tree_matches_live_scan (mm : String → String → Bool)
    (events methods : List String) (m : String) (p : Phase) (hm : m ∈ methods) :
    searchListenerTree (analyzeListenerTree mm events methods) m p
      = searchListeners mm events m p.str
    ∧ ∀ pat, pat ∈ searchListenerTree (analyzeListenerTree mm events methods) m p ↔
        (pat ∈ events ∧ mm (p.str ++ "." ++ m) pat = true) := by
  have key : searchListenerTree (analyzeListenerTree mm events methods) m p
      = searchListeners mm events m p.str := by
    unfold searchListenerTree analyzeListenerTree
    rw [lookup_map_self
      (fun name => (⟨searchListeners mm events name "before",
                     searchListeners mm events name "after",
                     searchListeners mm events name "afterError"⟩ : PhaseListeners))
      methods m hm]
    cases p <;> rfl
  refine ⟨key, ?_⟩
  intro pat
  rw [key]
  simp [searchListeners, List.mem_filter]

theorem c5_witness :
    "a.b" ∈ ["a.b"] ∧
    searchListenerTree (analyzeListenerTree mmEq ["before.a.b"] ["a.b"]) "a.b" .before
      = searchListeners mmEq ["before.a.b"] "a.b" Phase.before.str :=
  ⟨by decide,
   (c5_tree_matches_live_scan mmEq ["before.a.b"] ["a.b"] "a.b" .before (by decide)).1⟩

/-! ## C9: `use` rejects duplicates and rebuilds the tree -/

/-- C9: registering a builder whose name was already merged raises the
duplicate-ApiBuilder error (nothing is merged silently); a first-time merge
installs every method under `"<collectionName>.<methodName>"` and the state
returned already carries the listener tree fully rebuilt from the merged
registry and method set. -/
theorem c9_use_duplicate_and_merge (st : PoplarState) (b : Builder) :
    (st.apiBuilders.contains b.name = true → use st b = .error (dupMsg b.name))
    ∧ (st.apiBuilders.contains b.name = false →
      use st b = .ok ⟨st.mm, st.apiBuilders ++ [b.name],
          mergeListeners st.registry b.events,
          st.methods ++ b.methods.map (fun q => (b.name ++ "." ++ q.1, q.2)),
          analyzeListenerTree st.mm
            ((mergeListeners st.registry b.events).map Prod.fst)
            ((st.methods ++ b.methods.map (fun q => (b.name ++ "." ++ q.1, q.2))).map
              Prod.fst)⟩
      ∧ ∀ mn fn, (mn, fn) ∈ b.methods →
          (b.name ++ "." ++ mn, fn) ∈
            st.methods ++ b.methods.map (fun q => (b.name ++ "." ++ q.1, q.2))) := by
  constructor
  · intro h
    have h' : b.name ∈ st.apiBuilders := by simpa using h
    simp [use, h']
  · intro h
    have h' : b.name ∉ st.apiBuilders := by simpa using h
    refine ⟨by simp [use, h'], ?_⟩
    intro mn fn hmem
    exact List.mem_append_right _ (List.mem_map.mpr ⟨(mn, fn), hmem, rfl⟩)

theorem c9_witness :
    st1.apiBuilders.contains b0.name = true ∧
    use st1 b0 = .error (dupMsg "users") ∧
    st0.apiBuilders.contains b0.name = false ∧
    ("users" ++ "." ++ "login", mfn0) ∈
      st0.methods ++ b0.methods.map (fun q => (b0.name ++ "." ++ q.1, q.2)) :=
  ⟨by decide, (c9_use_duplicate_and_merge st1 b0).1 (by decide), by decide,
   ((c9_use_duplicate_and_merge st0 b0).2 (by decide)).2 "login" mfn0 (List.Mem.head _)⟩

theorem c10_witness :
    execHooks P0 .before "c.d" ctx0 = (0, ctx0, none) ∧
    inv0 ctx0 = ((some 7, some 3), ctx0) ∧
    (invokeMethodInContext P0 inv0 "c.d" ctx0).finalCtx.result = some 3 ∧
    (invokeMethodInContext P0 inv0 "c.d" ctx0).cbErr = some 7 :=
  ⟨rfl, rfl,
   ((c10_result_assigned_before_error_check P0 inv0 "c.d" ctx0).1 0 ctx0 7 (some 3)
     ctx0 rfl rfl).1,
   ((c10_result_assigned_before_error_check P0 inv0 "c.d" ctx0).1 0 ctx0 7 (some 3)
     ctx0 rfl rfl).2.1⟩

/-! ## Lemmas about the validation error store -/

theorem foldl_preserve {α β : Type} (Q : α → Prop) (f : α → β → α) :
    ∀ (l : List β) (a : α), (∀ x b, b ∈ l → Q x → Q (f x b)) → Q a → Q (l.foldl f a)
  | [], _, _, ha => ha
  | b :: l, a, h, ha =>
    foldl_preserve Q f l (f a b)
      (fun x c hc hx => h x c (List.mem_cons_of_mem _ hc) hx)
      (h a b (List.mem_cons_self _ _) ha)

theorem setKey_ne_nil (obj : List (String × String)) (k v : String) :
    setKey obj k v ≠ [] := by
  cases obj with
  | nil => simp [setKey]
  | cons a rest =>
    rcases a with ⟨k', v'⟩
    simp only [setKey]
    split <;> simp

theorem setKey_keys (obj : List (String × String)) (k v : String) :
    (setKey obj k v).map Prod.fst =
      if k ∈ obj.map Prod.fst then obj.map Prod.fst
      else obj.map Prod.fst ++ [k] := by
  induction obj with
  | nil => simp [setKey]
  | cons a rest ih =>
    rcases a with ⟨k', v'⟩
    by_cases h : k' = k
    · subst h
      simp [setKey]
    · have hb : (k' == k) = false := beq_eq_false_iff_ne.mpr h
      have hne : k ≠ k' := fun hh => h hh.symm
      simp only [setKey, hb, Bool.false_eq_true, if_false, List.map_cons, ih,
        List.mem_cons, hne, false_or]
      split <;> simp

theorem setKey_lookup_ne (obj : List (String × String)) (k v k2 : String)
    (h : k2 ≠ k) : (setKey obj k v).lookup k2 = obj.lookup k2 := by
  induction obj with
  | nil => simp [setKey, List.lookup, beq_eq_false_iff_ne.mpr h]
  | cons a rest ih =>
    rcases a with ⟨k', v'⟩
    by_cases h2 : k' = k
    · subst h2
      simp [setKey, List.lookup, beq_eq_false_iff_ne.mpr h]
    · have hb : (k' == k) = false := beq_eq_false_iff_ne.mpr h2
      by_cases h3 : k2 = k'
      · subst h3
        simp [setKey, hb, List.lookup]
      · simp [setKey, hb, List.lookup, beq_eq_false_iff_ne.mpr h3, ih]

theorem addParam_keys (es : ValErrors) (n v m : String) :
    (addParam es n v m).map Prod.fst =
      if n ∈ es.map Prod.fst then es.map Prod.fst
      else es.map Prod.fst ++ [n] := by
  induction es with
  | nil => simp [addParam]
  | cons a rest ih =>
    rcases a with ⟨k, obj⟩
    by_cases h : k = n
    · subst h
      simp [addParam]
    · have hb : (k == n) = false := beq_eq_false_iff_ne.mpr h
      have hne : n ≠ k := fun hh => h hh.symm
      simp only [addParam, hb, Bool.false_eq_true, if_false, List.map_cons, ih,
        List.mem_cons, hne, false_or]
      split <;> simp

theorem addParam_lookup_ne (es : ValErrors) (n v m p : String) (h : p ≠ n) :
    (addParam es n v m).lookup p = es.lookup p := by
  induction es with
  | nil => simp [addParam, List.lookup, beq_eq_false_iff_ne.mpr h]
  | cons a rest ih =>
    rcases a with ⟨k, obj⟩
    by_cases h2 : k = n
    · subst h2
      simp [addParam, List.lookup, beq_eq_false_iff_ne.mpr h]
    · have hb : (k == n) = false := beq_eq_false_iff_ne.mpr h2
      by_cases h3 : p = k
      · subst h3
        simp [addParam, hb, List.lookup]
      · simp [addParam, hb, List.lookup, beq_eq_false_iff_ne.mpr h3, ih]

theorem addParam_lookup_self (es : ValErrors) (n v m : String) :
    (addParam es n v m).lookup n =
      some (match es.lookup n with
            | some obj => setKey obj v m
            | none => [(v, m)]) := by
  induction es with
  | nil => simp [addParam, List.lookup]
  | cons a rest ih =>
    rcases a with ⟨k, obj⟩
    by_cases h : k = n
    · subst h
      simp [addParam, List.lookup]
    · have hb : (k == n) = false := beq_eq_false_iff_ne.mpr h
      have hb2 : (n == k) = false := beq_eq_false_iff_ne.mpr (fun hh => h hh.symm)
      simp [addParam, hb, List.lookup, hb2, ih]

theorem hasRequired_addError (es : ValErrors) (name vn : String)
    (msg : Option String) (p : String) (h : name ≠ p ∨ vn ≠ "required") :
    hasRequired (addError es name vn msg) p = hasRequired es p := by
  unfold addError hasRequired
  by_cases hp : p = name
  · subst hp
    rcases h with h | h
    · exact absurd rfl h
    · rw [addParam_lookup_self]
      cases hc : es.lookup p with
      | none =>
        simp [hc, List.lookup, beq_eq_false_iff_ne.mpr (fun hh => h hh.symm)]
      | some obj =>
        simp [hc, setKey_lookup_ne obj vn _ "required" (fun hh => h hh.symm)]
  · rw [addParam_lookup_ne es name vn _ p hp]

theorem setKey_keys_nodup (obj : List (String × String)) (k v : String)
    (h : (obj.map Prod.fst).Nodup) : ((setKey obj k v).map Prod.fst).Nodup := by
  rw [setKey_keys]
  split
  · exact h
  · rename_i hnot
    simp [List.nodup_append, h, hnot]

theorem addParam_entries (es : ValErrors) (n v m : String)
    (hg : ∀ e ∈ es, e.2 ≠ [] ∧ (e.2.map Prod.fst).Nodup) :
    ∀ e ∈ addParam es n v m, e.2 ≠ [] ∧ (e.2.map Prod.fst).Nodup := by
  induction es with
  | nil =>
    intro e he
    simp only [addParam, List.mem_singleton] at he
    subst he
    simp
  | cons a rest ih =>
    rcases a with ⟨k, obj⟩
    intro e he
    by_cases h : k = n
    · subst h
      have hko := hg (k, obj) (List.mem_cons_self _ _)
      simp only [addParam, beq_self_eq_true, if_true, List.mem_cons] at he
      rcases he with he | he
      · subst he
        exact ⟨setKey_ne_nil obj v m, setKey_keys_nodup obj v m hko.2⟩
      · exact hg _ (List.mem_cons_of_mem _ he)
    · have hb : (k == n) = false := beq_eq_false_iff_ne.mpr h
      simp only [addParam, hb, Bool.false_eq_true, if_false, List.mem_cons] at he
      rcases he with he | he
      · subst he
        exact hg _ (List.mem_cons_self _ _)
      · exact ih (fun x hx => hg x (List.mem_cons_of_mem _ hx)) _ he

theorem good_addError (es : ValErrors) (n v : String) (msg : Option String)
    (hg : goodErrors es) : goodErrors (addError es n v msg) := by
  obtain ⟨h1, h2⟩ := hg
  constructor
  · rw [addError, addParam_keys]
    split
    · exact h1
    · rename_i hnot
      simp [List.nodup_append, h1, hnot]
  · exact addParam_entries es n v (msgOr msg (defaultMessage n v)) h2

theorem runValidator_cases (lib : VLib) (params : Params) (name : String)
    (val : Option JSVal) (es : ValErrors) (v : String × VSpec) :
    runValidator lib params name val es v = es ∨
    ∃ msg, runValidator lib params name val es v = addError es name v.1 msg := by
  rcases v with ⟨vn, sp⟩
  cases sp with
  | fn f =>
    cases hf : f val params with
    | ret r =>
      by_cases hr : strTruthy r = true
      · exact Or.inr ⟨r, by simp [runValidator, hf, hr]⟩
      · rw [Bool.not_eq_true] at hr
        exact Or.inl (by simp [runValidator, hf, hr])
    | thrown e2 => exact Or.inl (by simp [runValidator, hf])
  | opts t msg args =>
    cases hl : lib vn with
    | none => exact Or.inl (by simp [runValidator, hl])
    | some vfn =>
      by_cases hv : vfn (val.toList ++ (if t then args else [])) = true
      · exact Or.inl (by simp [runValidator, hl, hv])
      · rw [Bool.not_eq_true] at hv
        exact Or.inr ⟨if t then msg else none, by simp [runValidator, hl, hv]⟩

theorem good_runValidator (lib : VLib) (params : Params) (name : String)
    (val : Option JSVal) (es : ValErrors) (v : String × VSpec)
    (hg : goodErrors es) : goodErrors (runValidator lib params name val es v) := by
  rcases runValidator_cases lib params name val es v with h | ⟨msg, h⟩
  · rw [h]; exact hg
  · rw [h]; exact good_addError es name v.1 msg hg

theorem validateOne_empty_cases (lib : VLib) (params : Params) (es : ValErrors)
    (a : Accept) (h : isEmpty (params.lookup a.arg) = true) :
    validateOne lib params es a = es ∨
    ∃ msg, validateOne lib params es a = addError es a.arg "required" msg := by
  unfold validateOne
  simp only [h, if_true]
  split
  · split
    · split
      · exact Or.inr ⟨_, rfl⟩
      · exact Or.inl rfl
    · exact Or.inl rfl
  · split
    · exact Or.inr ⟨_, rfl⟩
    · exact Or.inl rfl
  · exact Or.inl rfl

theorem validateOne_nonempty (lib : VLib) (params : Params) (es : ValErrors)
    (a : Accept) (h : isEmpty (params.lookup a.arg) = false) :
    validateOne lib params es a =
      (a.validates.filter (fun x => !(x.1 == "required"))).foldl
        (runValidator lib params a.arg (params.lookup a.arg)) es := by
  unfold validateOne
  simp [h]

theorem good_validateOne (lib : VLib) (params : Params) (es : ValErrors)
    (a : Accept) (hg : goodErrors es) : goodErrors (validateOne lib params es a) := by
  cases hem : isEmpty (params.lookup a.arg) with
  | true =>
    rcases validateOne_empty_cases lib params es a hem with h | ⟨msg, h⟩
    · rw [h]; exact hg
    · rw [h]; exact good_addError es a.arg "required" msg hg
  | false =>
    rw [validateOne_nonempty lib params es a hem]
    exact foldl_preserve goodErrors _ _ es
      (fun x b _ hx => good_runValidator lib params a.arg (params.lookup a.arg) x b hx) hg

theorem good_Validate (lib : VLib) (params : Params) (accepts : List Accept) :
    goodErrors (Validate lib params accepts) := by
  unfold Validate
  exact foldl_preserve goodErrors _ accepts []
    (fun x b _ hx => good_validateOne lib params x b hx)
    ⟨List.nodup_nil, fun e he => absurd he (List.not_mem_nil e)⟩

theorem flattenErrors_length (es : ValErrors) :
    (flattenErrors es).length = (es.map (fun e => e.2.length)).sum := by
  induction es with
  | nil => rfl
  | cons a rest ih =>
    simp only [flattenErrors, List.flatMap_cons, List.length_append,
      List.length_map, List.map_cons, List.sum_cons] at ih ⊢
    omega

theorem hasRequired_validateOne (lib : VLib) (params : Params) (p : String)
    (a : Accept) (es : ValErrors)
    (hem : isEmpty (params.lookup p) = false)
    (hp : hasRequired es p = false) :
    hasRequired (validateOne lib params es a) p = false := by
  by_cases harg : a.arg = p
  · have hem2 : isEmpty (params.lookup a.arg) = false := by rw [harg]; exact hem
    rw [validateOne_nonempty lib params es a hem2]
    refine foldl_preserve (fun x => hasRequired x p = false) _ _ es ?_ hp
    intro x b hb hx
    have hbn : b.1 ≠ "required" := by
      have h2 := (List.mem_filter.mp hb).2
      simpa using h2
    rcases runValidator_cases lib params a.arg (params.lookup a.arg) x b with hr | ⟨msg, hr⟩
    · rw [hr]; exact hx
    · rw [hr, hasRequired_addError x a.arg b.1 msg p (Or.inr hbn)]; exact hx
  · cases hem2 : isEmpty (params.lookup a.arg) with
    | true =>
      rcases validateOne_empty_cases lib params es a hem2 with h | ⟨msg, h⟩
      · rw [h]; exact hp
      · rw [h, hasRequired_addError es a.arg "required" msg p (Or.inl harg)]; exact hp
    | false =>
      rw [validateOne_nonempty lib params es a hem2]
      refine foldl_preserve (fun x => hasRequired x p = false) _ _ es ?_ hp
      intro x b _ hx
      rcases runValidator_cases lib params a.arg (params.lookup a.arg) x b with hr | ⟨msg, hr⟩
      · rw [hr]; exact hx
      · rw [hr, hasRequired_addError x a.arg b.1 msg p (Or.inl harg)]; exact hx

/-! ## C6: the `required` rule -/

/-- C6: in `Validate`, a parameter whose value is empty and whose rule
carries a `required` spec (a truthy options spec, or a function returning a
truthy message) yields exactly one error entry for that parameter, stored
under the validator name `required` (on an empty value no other validator is
even evaluated); and a parameter whose value is non-empty never gets a
`required` failure recorded, no matter what its other validators do. -/
theorem c6_required_validation (lib : VLib) (params : Params) :
    (∀ (a : Accept) (msg : Option String) (args : List JSVal),
      isEmpty (params.lookup a.arg) = true →
      a.validates.lookup "required" = some (.opts true msg args) →
      validateOne lib params [] a =
        [(a.arg, [("required", msgOr msg (defaultMessage a.arg "required"))])])
    ∧ (∀ (a : Accept) (f : Option JSVal → Params → FnRes) (msg : String),
      isEmpty (params.lookup a.arg) = true →
      a.validates.lookup "required" = some (.fn f) →
      f (params.lookup a.arg) params = .ret (some msg) →
      msg.isEmpty = false →
      validateOne lib params [] a = [(a.arg, [("required", msg)])])
    ∧ (∀ (accepts : List Accept) (p : String),
      isEmpty (params.lookup p) = false →
      hasRequired (Validate lib params accepts) p = false) := by
  refine ⟨?_, ?_, ?_⟩
  · intro a msg args hem hreq
    unfold validateOne
    simp only [hem, if_true, hreq]
    rfl
  · intro a f msg hem hreq hf hm
    unfold validateOne
    have hst : strTruthy (some msg) = true := by simp [strTruthy, hm]
    simp only [hem, if_true, hreq, hf, hst]
    simp [addError, addParam, msgOr, hm]
  · intro accepts p hem
    unfold Validate
    refine foldl_preserve (fun x => hasRequired x p = false) _ accepts [] ?_ rfl
    intro x b _ hx
    exact hasRequired_validateOne lib params p b x hem hx

theorem c6_witness :
    (isEmpty (paramsC.lookup "email") = true ∧
     validateOne libC paramsC [] acceptC =
       [("email", [("required",
          msgOr (some "email is required") (defaultMessage "email" "required"))])])
    ∧ (isEmpty (paramsD.lookup "email") = false ∧
       hasRequired (Validate libFail paramsD [acceptD]) "email" = false) :=
  ⟨⟨rfl, (c6_required_validation libC paramsC).1 acceptC (some "email is required") []
      rfl rfl⟩,
   ⟨rfl, (c6_required_validation libFail paramsD).2.2 [acceptD] "email" rfl⟩⟩

/-! ## C7: the shape of `ValidationError` -/

/-- C7: every `ValidationError` produced by `Validate` holds exactly one
entry per parameter that had at least one failing validator (distinct
parameter keys, each entry non-empty with distinct validator keys), and
`flatten` yields exactly one message per failing (parameter, validator)
pair, in parameter-then-validator order; in particular Scenario C —
`{email: given}` against `required` with message `email is required` —
gives `any() = true` and `flatten() = ["email is required"]`. -/
theorem c7_validation_error_shape :
    (∀ (lib : VLib) (params : Params) (accepts : List Accept),
      ((Validate lib params accepts).map Prod.fst).Nodup ∧
      (∀ e ∈ Validate lib params accepts, e.2 ≠ [] ∧ (e.2.map Prod.fst).Nodup) ∧
      (flattenErrors (Validate lib params accepts)).length =
        ((Validate lib params accepts).map (fun e => e.2.length)).sum)
    ∧ anyErrors (Validate libC paramsC acceptsC) = true
    ∧ flattenErrors (Validate libC paramsC acceptsC) = ["email is required"] := by
  refine ⟨?_, rfl, rfl⟩
  intro lib params accepts
  obtain ⟨h1, h2⟩ := good_Validate lib params accepts
  exact ⟨h1, h2, flattenErrors_length _⟩

theorem c7_witness :
    ((Validate libC paramsC acceptsC).map Prod.fst).Nodup ∧
    (flattenErrors (Validate libC paramsC acceptsC)).length =
      ((Validate libC paramsC acceptsC).map (fun e => e.2.length)).sum :=
  ⟨(c7_validation_error_shape.1 libC paramsC acceptsC).1,
   (c7_validation_error_shape.1 libC paramsC acceptsC).2.2⟩

/-! ## C8: a throwing validator is contained -/

theorem lookup_middle_ne {β : Type} (l1 l2 : List (String × β)) (x : String × β)
    (k : String) (h : x.1 ≠ k) :
    (l1 ++ x :: l2).lookup k = (l1 ++ l2).lookup k := by
  induction l1 with
  | nil =>
    rcases x with ⟨xk, xv⟩
    simp only [List.nil_append, List.lookup]
    rw [show (k == xk) = false from beq_eq_false_iff_ne.mpr (fun hh => h hh.symm)]
  | cons a rest ih =>
    rcases a with ⟨ak, av⟩
    simp only [List.cons_append, List.lookup]
    cases k == ak
    · simpa using ih
    · rfl

theorem lookup_append_not_mem {β : Type} (l1 l2 : List (String × β)) (k : String)
    (h : k ∉ l1.map Prod.fst) : (l1 ++ l2).lookup k = l2.lookup k := by
  induction l1 with
  | nil => simp
  | cons a rest ih =>
    rcases a with ⟨ak, av⟩
    simp only [List.map_cons, List.mem_cons] at h
    push_neg at h
    simp only [List.cons_append, List.lookup]
    rw [show (k == ak) = false from beq_eq_false_iff_ne.mpr h.1]
    exact ih h.2

theorem lookup_not_mem {β : Type} (l : List (String × β)) (k : String)
    (h : k ∉ l.map Prod.fst) : l.lookup k = none := by
  induction l with
  | nil => rfl
  | cons a rest ih =>
    rcases a with ⟨ak, av⟩
    simp only [List.map_cons, List.mem_cons] at h
    push_neg at h
    simp only [List.lookup]
    rw [show (k == ak) = false from beq_eq_false_iff_ne.mpr h.1]
    exact ih h.2

theorem filter_cons_pos {α : Type} (p : α → Bool) (a : α) (l : List α)
    (h : p a = true) : (a :: l).filter p = a :: l.filter p := by
  simp [List.filter_cons, h]

theorem validateOne_thrown_erase (lib : VLib) (params : Params) (argName : String)
    (l1 l2 : List (String × VSpec)) (vn : String)
    (f : Option JSVal → Params → FnRes) (e : String)
    (hnd : ((l1 ++ (vn, VSpec.fn f) :: l2).map Prod.fst).Nodup)
    (hthrow : f (params.lookup argName) params = .thrown e) (es : ValErrors) :
    validateOne lib params es ⟨argName, l1 ++ (vn, .fn f) :: l2⟩
      = validateOne lib params es ⟨argName, l1 ++ l2⟩ := by
  have hnd' := hnd
  rw [List.map_append, List.map_cons] at hnd'
  rw [List.nodup_append] at hnd'
  obtain ⟨nd1, nd2, disj⟩ := hnd'
  have hvn1 : vn ∉ l1.map Prod.fst := fun hmem =>
    disj hmem (List.mem_cons_self _ _)
  have hvn2 : vn ∉ l2.map Prod.fst := (List.nodup_cons.mp nd2).1
  cases hem : isEmpty (params.lookup argName) with
  | true =>
    unfold validateOne
    simp only [hem, if_true]
    by_cases hreq : vn = "required"
    · subst hreq
      rw [lookup_append_not_mem l1 _ _ hvn1, lookup_append_not_mem l1 l2 _ hvn1,
        lookup_not_mem l2 _ hvn2]
      simp [List.lookup, hthrow]
    · rw [lookup_middle_ne l1 l2 (vn, VSpec.fn f) "required" hreq]
  | false =>
    rw [validateOne_nonempty lib params es _ hem, validateOne_nonempty lib params es _ hem]
    change (((l1 ++ (vn, VSpec.fn f) :: l2).filter (fun x => !(x.1 == "required"))).foldl
        (runValidator lib params argName (params.lookup argName)) es)
      = (((l1 ++ l2).filter (fun x => !(x.1 == "required"))).foldl
        (runValidator lib params argName (params.lookup argName)) es)
    by_cases hreq : vn = "required"
    · subst hreq
      simp [List.filter_append]
    · have hkeep : (!((vn, VSpec.fn f).1 == "required")) = true := by
        simpa using hreq
      rw [List.filter_append,
        filter_cons_pos (fun x => !(x.1 == "required")) (vn, VSpec.fn f) l2 hkeep,
        List.filter_append, List.foldl_append, List.foldl_append, List.foldl_cons]
      have hmid : runValidator lib params argName (params.lookup argName)
          (List.foldl (runValidator lib params argName (params.lookup argName)) es
            (l1.filter (fun x => !(x.1 == "required")))) (vn, VSpec.fn f)
          = List.foldl (runValidator lib params argName (params.lookup argName)) es
            (l1.filter (fun x => !(x.1 == "required"))) := by
        simp [runValidator, hthrow]
      rw [hmid]

/-- C8: if a function-valued validator throws while being evaluated, the
exception is caught inside `Validate`, no failure is recorded for that
validator, and validation of the remaining validators and remaining
parameter rules continues with identical results: the outcome equals the
outcome of the same call with that validator removed. -/
theorem c8_validator_exception_contained (lib : VLib) (params : Params)
    (pre post : List Accept) (argName : String) (l1 l2 : List (String × VSpec))
    (vn : String) (f : Option JSVal → Params → FnRes) (e : String)
    (hnd : ((l1 ++ (vn, VSpec.fn f) :: l2).map Prod.fst).Nodup)
    (hthrow : f (params.lookup argName) params = .thrown e) :
    Validate lib params (pre ++ ⟨argName, l1 ++ (vn, .fn f) :: l2⟩ :: post)
      = Validate lib params (pre ++ ⟨argName, l1 ++ l2⟩ :: post) := by
  unfold Validate
  rw [List.foldl_append, List.foldl_append, List.foldl_cons, List.foldl_cons,
    validateOne_thrown_erase lib params argName l1 l2 vn f e hnd hthrow]

theorem c8_witness :
    ((([] : List (String × VSpec)) ++ ("check", VSpec.fn throwF) :: []).map
        Prod.fst).Nodup ∧
    throwF (paramsD.lookup "email") paramsD = .thrown "boom" ∧
    Validate libFail paramsD [⟨"email", [] ++ ("check", .fn throwF) :: []⟩]
      = Validate libFail paramsD [⟨"email", [] ++ []⟩] :=
  ⟨by simp, rfl,
   c8_validator_exception_contained libFail paramsD [] [] "email" [] [] "check"
     throwF "boom" (by simp) rfl⟩
